import Mathlib

/-!
Shallow embedding of the DOCX→Markdown converter scripts of this
repository: `analyze_docx.py` (function `extract_docx_exact`) and
`extract_docx_simple.py` (function `extract_docx_simple`).

The two scripts build a list of Markdown lines (`markdown_content`) from a
parsed document — ordered paragraphs with a style name and a text, and
ordered tables of rows of cells — and write the newline-joined lines to a
file derived from the input file name.  The two scripts differ only in the
label of the tables section (`"# TABLES SECTION"` vs `"# DOCUMENT TABLES"`)
and in console logging, which is not modelled except for the error report
on a missing input file.

Python strings are modelled as Lean `String` / `List Char`; the Python
string primitives used by the scripts (`str.strip`, `in`, `str.replace`,
`str.join`) are embedded below.  `str.strip()` is modelled over the ASCII
whitespace characters.
-/

/-- Python whitespace (ASCII), the characters removed by `str.strip()`. -/
def pyWS (c : Char) : Bool :=
  c = ' ' || c = '\t' || c = '\n' || c = '\r' || c = '\x0b' || c = '\x0c'

/-- Drop leading whitespace characters. -/
def dropWS : List Char → List Char
  | [] => []
  | c :: rest => if pyWS c then dropWS rest else c :: rest

/-- Drop trailing whitespace characters. -/
def dropTrailWS : List Char → List Char
  | [] => []
  | c :: rest =>
      let r := dropTrailWS rest
      if r.isEmpty && pyWS c then [] else c :: r

/-- Python `str.strip()`: remove leading and trailing whitespace. -/
def stripL (l : List Char) : List Char := dropTrailWS (dropWS l)

/-- Python `str.strip()` on `String`. -/
def pyStrip (s : String) : String := String.mk (stripL s.toList)

/-- `startsL l p`: the list `l` starts with the pattern `p`. -/
def startsL : List Char → List Char → Bool
  | _, [] => true
  | [], _ :: _ => false
  | c :: rest, d :: p => c = d && startsL rest p

/-- Python substring test `nd in hay`, over character lists. -/
def hasSubL : List Char → List Char → Bool
  | [], nd => nd.isEmpty
  | c :: rest, nd => startsL (c :: rest) nd || hasSubL rest nd

/-- Python substring test `nd in hay` on `String`. -/
def strContains (hay nd : String) : Bool := hasSubL hay.toList nd.toList

/-- Python `sep.join(parts)` (used with `" | "` and `"\n"`). -/
def joinSep (sep : String) : List String → String
  | [] => ""
  | [p] => p
  | p :: ps => p ++ sep ++ joinSep sep ps

/-- A paragraph of the parsed document: `paragraph.style` (which may be
absent, i.e. `None`) carrying its `.name`, and `paragraph.text`. -/
structure Paragraph where
  style : Option String
  text : String
deriving DecidableEq

/-- A table cell: the texts of the cell's paragraphs (`cell.paragraphs`). -/
structure Cell where
  paras : List String
deriving DecidableEq

/-- A table: ordered rows, each an ordered list of cells. -/
structure Table where
  rows : List (List Cell)
deriving DecidableEq

/-- The parsed document as exposed by the document library. -/
structure DocModel where
  paragraphs : List Paragraph
  tables : List Table
deriving DecidableEq

/-- The style-name → Markdown line mapping of both scripts
(`analyze_docx.py` lines 55–70, `extract_docx_simple.py` lines 49–64):
an ordered chain of case-sensitive substring / equality tests. -/
def styleLine (style text : String) : String :=
  if strContains style "Title" then "# " ++ text
  else if strContains style "Heading 1" || style = "Heading1" then "# " ++ text
  else if strContains style "Heading 2" || style = "Heading2" then "## " ++ text
  else if strContains style "Heading 3" || style = "Heading3" then "### " ++ text
  else if strContains style "Heading 4" || style = "Heading4" then "#### " ++ text
  else if strContains style "Heading 5" || style = "Heading5" then "##### " ++ text
  else if strContains style "Heading 6" || style = "Heading6" then "###### " ++ text
  else text

/-- The lines contributed by one paragraph: nothing when the stripped text
is empty, otherwise the mapped line followed by a blank line
(`analyze_docx.py` lines 46–73, `extract_docx_simple.py` lines 41–66).
A missing style (`paragraph.style` is `None`) is read as `'Normal'`. -/
def paraLines (p : Paragraph) : List String :=
  let text := pyStrip p.text
  if text = "" then []
  else
    let style := match p.style with
      | some st => st
      | none => "Normal"
    [styleLine style text, ""]

/-- Modelled from the spec's words (§4.1, heading style-name mapping), for
comparison with the code's `styleLine`: `Title` → `#`; `"Heading 1"` or
`"Heading1"` → `#`; …; `"Heading 6"`/`"Heading6"` → `######`; otherwise the
trimmed text with no prefix; case-sensitive, first match wins, in this
order. -/
def specStyleLine (style text : String) : String :=
  if strContains style "Title" then "# " ++ text
  else if strContains style "Heading 1" || style = "Heading1" then "# " ++ text
  else if strContains style "Heading 2" || style = "Heading2" then "## " ++ text
  else if strContains style "Heading 3" || style = "Heading3" then "### " ++ text
  else if strContains style "Heading 4" || style = "Heading4" then "#### " ++ text
  else if strContains style "Heading 5" || style = "Heading5" then "##### " ++ text
  else if strContains style "Heading 6" || style = "Heading6" then "###### " ++ text
  else text

/-- Python `s.replace(c, r)` for a single-character pattern `c`: every
occurrence of the character `c` is replaced by `r`.  (For a one-character
pattern Python's left-to-right non-overlapping scan is exactly a
character-wise substitution.) -/
def replaceChar (c : Char) (r : List Char) : List Char → List Char
  | [] => []
  | x :: rest => (if x = c then r else [x]) ++ replaceChar c r rest

/-- The cell-text clean-up of both scripts (`analyze_docx.py` lines
101–103, `extract_docx_simple.py` line 95):
`cell_text.replace("|", "\\|").replace("\n", " ").replace("\r", " ")`. -/
def cleanL (l : List Char) : List Char :=
  replaceChar '\r' [' '] (replaceChar '\n' [' '] (replaceChar '|' ['\\', '|'] l))

/-- One iteration of the cell-text accumulation loop
(`analyze_docx.py` lines 96–99): `if cell_text: cell_text += " "` then
`cell_text += para.text.strip()`. -/
def cellStep (acc : List Char) (p : List Char) : List Char :=
  (if acc = [] then acc else acc ++ [' ']) ++ stripL p

/-- The accumulated cell text over the cell's paragraphs. -/
def cellJoinL (paras : List (List Char)) : List Char :=
  paras.foldl cellStep []

/-- The rendered text of one table cell (`analyze_docx.py` lines 95–104):
accumulate the stripped paragraph texts, clean up, and strip. -/
def renderCell (c : Cell) : String :=
  String.mk (stripL (cleanL (cellJoinL (c.paras.map String.toList))))

/-- One emitted table grid line from a list of cell texts
(`"| " + " | ".join(cells) + " |"`). -/
def rowLine (cells : List String) : String :=
  "| " ++ joinSep " | " cells ++ " |"

/-- Right-pad a row with empty-string cells up to `n` columns
(the `while len(row) < max_cols: row.append("")` loop). -/
def padRow (n : Nat) (r : List String) : List String :=
  r ++ List.replicate (n - r.length) ""

/-- `table_data`: the rendered cell texts of a table, row by row. -/
def tableData (t : Table) : List (List String) :=
  t.rows.map (fun r => r.map renderCell)

/-- `max_cols`: the maximum row width of the table data (both scripts
compute the maximum of the row lengths, starting from 0). -/
def maxColsOf (data : List (List String)) : Nat :=
  data.foldl (fun m r => max m r.length) 0

/-- The Markdown grid of one table: when the table has rows and a positive
column count, the padded first row as header, a separator with one `---`
field per column, then the remaining padded rows; otherwise nothing
(`analyze_docx.py` lines 110–128, `extract_docx_simple.py` lines 102–117). -/
def gridLines (data : List (List String)) : List String :=
  if data ≠ [] ∧ 0 < maxColsOf data then
    let m := maxColsOf data
    let padded := data.map (padRow m)
    match padded with
    | [] => []
    | headers :: rest =>
        rowLine headers
          :: rowLine (List.replicate headers.length "---")
          :: rest.map rowLine
  else []

/-- All lines emitted for the table with 0-based index `idx`: its own
header `## Table N` (N = idx+1), a blank line, the grid, and the blank
line appended after every table. -/
def tableLines (idx : Nat) (data : List (List String)) : List String :=
  ("## Table " ++ toString (idx + 1)) :: "" :: gridLines data ++ [""]

/-- The tables section: empty when there are no tables, otherwise a
horizontal rule, a blank line, the section label, a blank line, and each
table's lines in order. -/
def tablesSection (label : String) (tables : List Table) : List String :=
  if tables = [] then []
  else ["---", "", label, ""]
    ++ (tables.enum.flatMap fun it => tableLines it.1 (tableData it.2))

/-- The full `markdown_content` line list, parameterized by the tables
section label (the only output difference between the two scripts). -/
def markdownLines (label : String) (d : DocModel) : List String :=
  d.paragraphs.flatMap paraLines ++ tablesSection label d.tables

/-- `markdown_content` of `analyze_docx.py` (`extract_docx_exact`). -/
def mdLinesExact (d : DocModel) : List String :=
  markdownLines "# TABLES SECTION" d

/-- `markdown_content` of `extract_docx_simple.py`. -/
def mdLinesSimple (d : DocModel) : List String :=
  markdownLines "# DOCUMENT TABLES" d

/-- The bytes written to the output file: `'\n'.join(markdown_content)`. -/
def fileContent (lines : List String) : String :=
  joinSep "\n" lines

/-- Fuel-driven left-to-right non-overlapping substring replacement: the
scan of Python `s.replace(nd, rp)` for a non-empty pattern `nd` (the only
use in the scripts is the non-empty pattern `".docx"`).  The fuel is
instantiated with the length of the scanned string, which suffices since
every step consumes at least one character. -/
def replaceSubFuel (nd rp : List Char) : Nat → List Char → List Char
  | _, [] => []
  | 0, s => s
  | fuel + 1, c :: rest =>
      if startsL (c :: rest) nd then
        rp ++ replaceSubFuel nd rp fuel (List.drop nd.length (c :: rest))
      else c :: replaceSubFuel nd rp fuel rest

/-- Python `s.replace(nd, rp)` over character lists (non-empty `nd`). -/
def replaceSubL (nd rp s : List Char) : List Char :=
  replaceSubFuel nd rp s.length s

/-- The output file name
(`filename.replace('.docx', '_exact_extraction.md')`,
`analyze_docx.py` line 133, `extract_docx_simple.py` line 122). -/
def outputName (filename : String) : String :=
  String.mk (replaceSubL ".docx".toList "_exact_extraction.md".toList
    filename.toList)

/-- A file system: file names paired with their contents.  This is the
state the scripts touch through `os.path.exists` and `open(..., 'w')`. -/
structure FS where
  files : List (String × String)
deriving DecidableEq

/-- `os.path.exists(filename)`. -/
def pathExists (fs : FS) (p : String) : Bool :=
  fs.files.any (fun kv => kv.1 = p)

/-- `open(p, 'w').write(c)`: create or overwrite the file `p`. -/
def writeFile (fs : FS) (p c : String) : FS :=
  ⟨(p, c) :: fs.files.filter (fun kv => ¬ kv.1 = p)⟩

/-- The effectful skeleton of `extract_docx_simple` (lines 21–135): check
that the input exists (otherwise print an error and return `None`), parse
the document (a parse failure is caught and `None` returned), build the
Markdown lines, write them to the derived output name, and return that
name.  The result is the final file system, the printed error messages
(progress logging is not modelled), and the function's return value. -/
def runConvertSimple (fs : FS) (parse : String → Option DocModel)
    (filename : String) : FS × List String × Option String :=
  if pathExists fs filename = false then
    (fs, ["Error: File '" ++ filename ++ "' not found"], none)
  else
    match parse filename with
    | none => (fs, ["Error processing file"], none)
    | some d =>
        let out := outputName filename
        (writeFile fs out (fileContent (mdLinesSimple d)), [], some out)

/-- `splitUA prevBS l` splits `l` at every unescaped `'|'` — every pipe
character whose immediately preceding character is not a backslash —
tracking in `prevBS` whether the previous character was a backslash. -/
def splitUA (prevBS : Bool) : List Char → List (List Char)
  | [] => [[]]
  | c :: rest =>
      if c = '|' && !prevBS then [] :: splitUA false rest
      else
        match splitUA (c == '\\') rest with
        | [] => [[c]]
        | p :: ps => (c :: p) :: ps

/-- Split a string at its unescaped pipe characters. -/
def splitUnesc (s : String) : List (List Char) := splitUA false s.toList

/-- The pipe-delimited fields of a Markdown grid line: the pieces of the
unescaped-pipe split that lie strictly between the two border pipes. -/
def fieldCells (s : String) : List String :=
  (((splitUnesc s).drop 1).dropLast).map String.mk

/-- `pipesEsc prevBS l`: every `'|'` in `l` is escaped, i.e. immediately
preceded by a backslash (`prevBS` tells whether the character before `l`
was a backslash). -/
def pipesEsc (prevBS : Bool) : List Char → Bool
  | [] => true
  | c :: rest => (!(c = '|') || prevBS) && pipesEsc (c == '\\') rest

/-- Whether the character just before the end of `prev ++ l` is a
backslash. -/
def lastBS (prevBS : Bool) : List Char → Bool
  | [] => prevBS
  | c :: rest => lastBS (c == '\\') rest

/-- Prepend `xs` to the first piece of a split result. -/
def consMany (xs : List Char) : List (List Char) → List (List Char)
  | [] => [xs]
  | p :: ps => (xs ++ p) :: ps

/-- List-level counterpart of `joinSep`. -/
def joinSepL (sep : List Char) : List (List Char) → List Char
  | [] => []
  | [p] => p
  | p :: ps => p ++ sep ++ joinSepL sep ps

/-- Modelled from the spec's words (§3 data model): the texts of a cell's
paragraphs, each trimmed, joined with exactly one separating space between
each consecutive pair. -/
def specJoin : List (List Char) → List Char
  | [] => []
  | [p] => stripL p
  | p :: ps => stripL p ++ ' ' :: specJoin ps

/-- Modelled from the spec's words: a cell rendered as the single-space
join of its trimmed paragraph texts, then escaped and trimmed. -/
def specRenderCell (c : Cell) : String :=
  String.mk (stripL (cleanL (specJoin (c.paras.map String.toList))))

/-! Sanity checks evaluating the embedding on concrete inputs. -/

example : styleLine "Heading 2" "x" = "## x" := by decide

example : styleLine "Title Heading 2" "x" = "# x" := by decide

example : paraLines ⟨some "Normal", "  hi  "⟩ = ["hi", ""] := by decide

example : paraLines ⟨none, "  "⟩ = [] := by decide

example :
    tableData ⟨[[⟨["a"]⟩, ⟨["b"]⟩], [⟨["c"]⟩]]⟩ = [["a", "b"], ["c"]] := by
  decide

example :
    gridLines [["a", "b"], ["c"]]
      = ["| a | b |", "| --- | --- |", "| c |  |"] := by decide

example : gridLines [] = [] := by decide

example : gridLines [[], []] = [] := by decide

example :
    fileContent (mdLinesSimple ⟨[⟨some "Title", "Report"⟩,
      ⟨some "Normal", "Hello world"⟩], []⟩)
      = "# Report\n\nHello world\n" := by decide

example : outputName "report.docx" = "report_exact_extraction.md" := by decide

example :
    outputName "a.docx.docx"
      = "a_exact_extraction.md_exact_extraction.md" := by decide

example : splitUnesc "| a | b |" = [[], " a ".toList, " b ".toList, []] := by
  decide

example : splitUnesc "| a\\|b |" = [[], " a\\|b ".toList, []] := by decide

example : fieldCells "| a | b |" = [" a ", " b "] := by decide

example : pipesEsc false "a\\|b".toList = true := by decide

example : pipesEsc false "a|b".toList = false := by decide

example : renderCell ⟨["a|b", "c\nd"]⟩ = "a\\|b c d" := by decide

example : renderCell ⟨["", "a"]⟩ = "a" := by decide

example : specRenderCell ⟨["", "a"]⟩ = "a" := by decide

example : renderCell ⟨["a", "", "b"]⟩ = "a  b" := by decide

theorem splitUA_ne_nil (prev : Bool) (l : List Char) : splitUA prev l ≠ [] := by
  cases l with
  | nil => simp [splitUA]
  | cons c rest =>
      unfold splitUA
      split
      · simp
      · split <;> simp

theorem pipesEsc_append (ys : List Char) :
    ∀ (xs : List Char) (prev : Bool),
      pipesEsc prev (xs ++ ys)
        = (pipesEsc prev xs && pipesEsc (lastBS prev xs) ys)
  | [], prev => by simp [pipesEsc, lastBS]
  | c :: xs', prev => by
      simp only [List.cons_append, List.append_eq, pipesEsc, lastBS]
      rw [pipesEsc_append ys xs' (c == '\\'), Bool.and_assoc]

theorem lastBS_append (ys : List Char) :
    ∀ (xs : List Char) (prev : Bool),
      lastBS prev (xs ++ ys) = lastBS (lastBS prev xs) ys
  | [], prev => by simp [lastBS]
  | c :: xs', prev => by
      simp only [List.cons_append, lastBS]
      exact lastBS_append ys xs' (c == '\\')

/-- Scanning `xs ++ ys` when every pipe in `xs` is escaped: no split
happens inside `xs`, which is prepended to the first piece of the scan of
`ys`. -/
theorem splitUA_append (ys : List Char) :
    ∀ (xs : List Char) (prev : Bool), pipesEsc prev xs = true →
      splitUA prev (xs ++ ys) = consMany xs (splitUA (lastBS prev xs) ys)
  | [], prev, _ => by
      cases h : splitUA prev ys with
      | nil => exact absurd h (splitUA_ne_nil prev ys)
      | cons p ps => simp [lastBS, consMany, h]
  | c :: xs', prev, h => by
      simp only [pipesEsc, Bool.and_eq_true] at h
      obtain ⟨h1, h2⟩ := h
      have ih := splitUA_append ys xs' (c == '\\') h2
      simp only [List.cons_append, List.append_eq, splitUA, lastBS]
      have hcond : (decide (c = '|') && !prev) = false := by
        by_cases hc : c = '|'
        · simp [hc] at h1 ⊢
          simp [h1]
        · simp [hc]
      rw [hcond]
      simp only [Bool.false_eq_true, if_false]
      rw [ih]
      cases hs : splitUA (lastBS (c == '\\') xs') ys with
      | nil => exact absurd hs (splitUA_ne_nil _ _)
      | cons p ps => simp [consMany, hs]

theorem toList_joinSep (sep : String) :
    ∀ l : List String,
      (joinSep sep l).toList = joinSepL sep.toList (l.map String.toList)
  | [] => rfl
  | [p] => rfl
  | p :: q :: ps => by
      show (p ++ sep ++ joinSep sep (q :: ps)).toList
        = p.toList ++ sep.toList ++ joinSepL sep.toList ((q :: ps).map String.toList)
      rw [show (p ++ sep ++ joinSep sep (q :: ps)).toList
            = p.toList ++ sep.toList ++ (joinSep sep (q :: ps)).toList from rfl,
        toList_joinSep sep (q :: ps)]

/-- The character list of an emitted grid line. -/
theorem toList_rowLine (cells : List String) :
    (rowLine cells).toList
      = '|' :: ' '
          :: (joinSepL [' ', '|', ' '] (cells.map String.toList) ++ [' ', '|']) := by
  show ("| " ++ joinSep " | " cells ++ " |").toList = _
  rw [show ("| " ++ joinSep " | " cells ++ " |").toList
        = '|' :: ' ' :: ((joinSep " | " cells).toList ++ [' ', '|']) from rfl,
    toList_joinSep]
  rfl

/-- The unescaped-pipe split of one cell padded by the grid spaces,
followed by a pipe: one piece, then the scan of the remainder. -/
theorem splitUA_piece (c : List Char) (ys : List Char)
    (h : pipesEsc false c = true) :
    splitUA false ((' ' :: c ++ [' ']) ++ '|' :: ys)
      = (' ' :: c ++ [' ']) :: splitUA false ys := by
  have hesc : pipesEsc false (' ' :: c ++ [' ']) = true := by
    show pipesEsc false ((' ' :: c) ++ [' ']) = true
    rw [pipesEsc_append]
    simp only [pipesEsc, lastBS]
    simp [h]
  have hlast : lastBS false (' ' :: c ++ [' ']) = false := by
    show lastBS false ((' ' :: c) ++ [' ']) = false
    rw [lastBS_append]
    simp [lastBS]
  rw [splitUA_append _ _ _ hesc, hlast]
  rw [show splitUA false ('|' :: ys) = [] :: splitUA false ys by simp [splitUA]]
  simp [consMany]

/-- The unescaped-pipe split of the cell area of a grid line: one piece
per cell (each padded with the surrounding spaces), then the empty border
piece. -/
theorem splitUA_cellArea :
    ∀ cells : List String, cells ≠ [] →
      (∀ c ∈ cells, pipesEsc false c.toList = true) →
      splitUA false
          ((' ' :: joinSepL [' ', '|', ' '] (cells.map String.toList)) ++ [' ', '|'])
        = cells.map (fun c => ' ' :: c.toList ++ [' ']) ++ [[]]
  | [], h0, _ => absurd rfl h0
  | [c], _, h => by
      have hc := h c (by simp)
      have := splitUA_piece c.toList [] hc
      simp only [List.append_nil] at this
      rw [show (' ' :: joinSepL [' ', '|', ' '] ([c].map String.toList)) ++ [' ', '|']
            = (' ' :: c.toList ++ [' ']) ++ '|' :: [] by simp [joinSepL]]
      rw [this]
      simp [splitUA]
  | c :: c2 :: cs, _, h => by
      have hc := h c (by simp)
      have ih := splitUA_cellArea (c2 :: cs) (by simp)
        (fun x hx => h x (List.mem_cons_of_mem c hx))
      rw [show (' ' :: joinSepL [' ', '|', ' '] ((c :: c2 :: cs).map String.toList))
              ++ [' ', '|']
            = (' ' :: c.toList ++ [' ']) ++ '|'
              :: ((' ' :: joinSepL [' ', '|', ' '] ((c2 :: cs).map String.toList))
                  ++ [' ', '|']) by simp [joinSepL]]
      rw [splitUA_piece c.toList _ hc, ih]
      simp

/-- The full unescaped-pipe split of an emitted grid line whose cells all
have their pipes escaped. -/
theorem splitUnesc_rowLine (cells : List String) (h0 : cells ≠ [])
    (h : ∀ c ∈ cells, pipesEsc false c.toList = true) :
    splitUnesc (rowLine cells)
      = [] :: (cells.map (fun c => ' ' :: c.toList ++ [' ']) ++ [[]]) := by
  show splitUA false (rowLine cells).toList = _
  rw [toList_rowLine]
  rw [show splitUA false ('|' :: ' '
        :: (joinSepL [' ', '|', ' '] (cells.map String.toList) ++ [' ', '|']))
      = [] :: splitUA false (' '
          :: (joinSepL [' ', '|', ' '] (cells.map String.toList) ++ [' ', '|']))
      by simp [splitUA]]
  rw [show (' ' :: (joinSepL [' ', '|', ' '] (cells.map String.toList) ++ [' ', '|']))
        = (' ' :: joinSepL [' ', '|', ' '] (cells.map String.toList)) ++ [' ', '|']
      from rfl]
  rw [splitUA_cellArea cells h0 h]

/-- The pipe-delimited fields of an emitted grid line are exactly its
cells, each padded with one space on either side. -/
theorem fieldCells_rowLine (cells : List String) (h0 : cells ≠ [])
    (h : ∀ c ∈ cells, pipesEsc false c.toList = true) :
    fieldCells (rowLine cells) = cells.map (fun c => " " ++ c ++ " ") := by
  unfold fieldCells
  rw [splitUnesc_rowLine cells h0 h]
  simp only [List.drop_succ_cons, List.drop_zero]
  rw [List.dropLast_concat]
  rw [List.map_map]
  exact List.map_congr_left fun c _ => rfl

/-- Field count of an emitted grid line. -/
theorem fieldCells_rowLine_length (cells : List String) (h0 : cells ≠ [])
    (h : ∀ c ∈ cells, pipesEsc false c.toList = true) :
    (fieldCells (rowLine cells)).length = cells.length := by
  rw [fieldCells_rowLine cells h0 h, List.length_map]

/-- After the pipe-escaping replacement, every pipe is preceded by a
backslash. -/
theorem pipesEsc_escapePipe :
    ∀ (l : List Char) (prev : Bool),
      pipesEsc prev (replaceChar '|' ['\\', '|'] l) = true
  | [], _ => rfl
  | x :: rest, prev => by
      by_cases hx : x = '|'
      · simp only [replaceChar, hx, if_pos rfl]
        simp [pipesEsc, pipesEsc_escapePipe rest]
      · simp only [replaceChar, if_neg hx]
        simp [pipesEsc, hx, pipesEsc_escapePipe rest]

/-- Replacing a character other than `'|'` and `'\\'` by a space keeps
every pipe escaped. -/
theorem pipesEsc_replaceBySpace (c0 : Char) (hc1 : c0 ≠ '|')
    (hc2 : c0 ≠ '\\') :
    ∀ (l : List Char) (prev : Bool), pipesEsc prev l = true →
      pipesEsc prev (replaceChar c0 [' '] l) = true
  | [], _, _ => rfl
  | x :: rest, prev, h => by
      simp only [pipesEsc, Bool.and_eq_true] at h
      by_cases hx : x = c0
      · simp only [replaceChar, hx, if_pos rfl]
        have := pipesEsc_replaceBySpace c0 hc1 hc2 rest (c0 == '\\')
          (by rw [← hx]; exact h.2)
        rw [show (c0 == '\\') = false by simp [hc2]] at this
        simp [pipesEsc, this]
      · simp only [replaceChar, if_neg hx]
        simp [pipesEsc, h.1, pipesEsc_replaceBySpace c0 hc1 hc2 rest _ h.2]

/-- Dropping leading whitespace keeps every pipe escaped. -/
theorem pipesEsc_dropWS :
    ∀ l : List Char, pipesEsc false l = true →
      pipesEsc false (dropWS l) = true
  | [], _ => rfl
  | c :: rest, h => by
      simp only [pipesEsc, Bool.and_eq_true] at h
      by_cases hc : pyWS c
      · have hbs : (c == '\\') = false := by
          simp [pyWS] at hc
          rcases hc with ((((h | h) | h) | h) | h) | h <;> subst h <;> decide
        rw [show dropWS (c :: rest) = dropWS rest by simp [dropWS, hc]]
        exact pipesEsc_dropWS rest (by rw [hbs] at h; exact h.2)
      · rw [show dropWS (c :: rest) = c :: rest by simp [dropWS, hc]]
        simp [pipesEsc, h.1, h.2]

/-- Dropping trailing whitespace keeps every pipe escaped. -/
theorem pipesEsc_dropTrailWS :
    ∀ (l : List Char) (prev : Bool), pipesEsc prev l = true →
      pipesEsc prev (dropTrailWS l) = true
  | [], _, _ => rfl
  | c :: rest, prev, h => by
      simp only [pipesEsc, Bool.and_eq_true] at h
      rw [show dropTrailWS (c :: rest)
            = if ((dropTrailWS rest).isEmpty && pyWS c) = true then []
              else c :: dropTrailWS rest from rfl]
      split
      · rfl
      · simp [pipesEsc, h.1, pipesEsc_dropTrailWS rest _ h.2]

/-- Every pipe in a rendered cell text is escaped: it is immediately
preceded by a backslash. -/
theorem pipesEsc_renderCell (c : Cell) :
    pipesEsc false (renderCell c).toList = true := by
  show pipesEsc false (stripL (cleanL (cellJoinL (c.paras.map String.toList))))
    = true
  unfold stripL cleanL
  apply pipesEsc_dropTrailWS
  apply pipesEsc_dropWS
  apply pipesEsc_replaceBySpace '\r' (by decide) (by decide)
  apply pipesEsc_replaceBySpace '\n' (by decide) (by decide)
  exact pipesEsc_escapePipe _ _

/-- Characters of a replacement result come from the replacement string or
are kept characters different from the pattern. -/
theorem mem_replaceChar (c0 : Char) (r : List Char) :
    ∀ (l : List Char) (x : Char), x ∈ replaceChar c0 r l →
      x ∈ r ∨ (x ∈ l ∧ x ≠ c0)
  | [], x, hx => by simp [replaceChar] at hx
  | y :: rest, x, hx => by
      simp only [replaceChar, List.mem_append] at hx
      rcases hx with hx | hx
      · by_cases hy : y = c0
        · rw [if_pos hy] at hx
          exact Or.inl hx
        · rw [if_neg hy] at hx
          simp at hx
          subst hx
          exact Or.inr ⟨by simp, hy⟩
      · rcases mem_replaceChar c0 r rest x hx with h | h
        · exact Or.inl h
        · exact Or.inr ⟨List.mem_cons_of_mem y h.1, h.2⟩

theorem mem_dropWS : ∀ (l : List Char) (x : Char), x ∈ dropWS l → x ∈ l
  | [], x, hx => hx
  | c :: rest, x, hx => by
      by_cases hc : pyWS c
      · rw [show dropWS (c :: rest) = dropWS rest by simp [dropWS, hc]] at hx
        exact List.mem_cons_of_mem c (mem_dropWS rest x hx)
      · rwa [show dropWS (c :: rest) = c :: rest by simp [dropWS, hc]] at hx

theorem mem_dropTrailWS :
    ∀ (l : List Char) (x : Char), x ∈ dropTrailWS l → x ∈ l
  | [], x, hx => hx
  | c :: rest, x, hx => by
      rw [show dropTrailWS (c :: rest)
            = if ((dropTrailWS rest).isEmpty && pyWS c) = true then []
              else c :: dropTrailWS rest from rfl] at hx
      split at hx
      · simp at hx
      · rcases List.mem_cons.mp hx with h | h
        · exact h ▸ List.mem_cons_self c rest
        · exact List.mem_cons_of_mem c (mem_dropTrailWS rest x h)

/-- A rendered cell text contains no newline and no carriage return. -/
theorem noNewline_renderCell (c : Cell) :
    '\n' ∉ (renderCell c).toList ∧ '\r' ∉ (renderCell c).toList := by
  have key : ∀ x : Char, x = '\n' ∨ x = '\r' →
      x ∉ (renderCell c).toList := by
    intro x hx hmem
    have h1 := mem_dropTrailWS _ _ hmem
    have h2 := mem_dropWS _ _ h1
    rcases mem_replaceChar '\r' [' '] _ _ h2 with h3 | h3
    · simp at h3
      rcases hx with rfl | rfl <;> simp at h3
    · rcases mem_replaceChar '\n' [' '] _ _ h3.1 with h4 | h4
      · simp at h4
        rcases hx with rfl | rfl <;> simp at h4
      · rcases hx with rfl | rfl
        · exact h4.2 rfl
        · exact h3.2 rfl
  exact ⟨key '\n' (Or.inl rfl), key '\r' (Or.inr rfl)⟩

theorem init_le_foldl_max :
    ∀ (data : List (List String)) (a : Nat),
      a ≤ data.foldl (fun m r => max m r.length) a
  | [], a => le_refl a
  | h :: tl, a =>
      le_trans (le_max_left a h.length) (init_le_foldl_max tl _)

theorem mem_le_foldl_max :
    ∀ (data : List (List String)) (a : Nat) (r : List String), r ∈ data →
      r.length ≤ data.foldl (fun m r => max m r.length) a
  | [], _, _, hr => absurd hr (List.not_mem_nil _)
  | h :: tl, a, r, hr => by
      rcases List.mem_cons.mp hr with rfl | h2
      · exact le_trans (le_max_right a r.length) (init_le_foldl_max tl _)
      · exact mem_le_foldl_max tl _ r h2

/-- Every row of a table is at most `max_cols` wide. -/
theorem length_le_maxColsOf (data : List (List String)) (r : List String)
    (hr : r ∈ data) : r.length ≤ maxColsOf data :=
  mem_le_foldl_max data 0 r hr

theorem padRow_length (n : Nat) (r : List String) (hle : r.length ≤ n) :
    (padRow n r).length = n := by
  simp [padRow]
  omega

/-- The emitted grid of a non-empty table with a positive column count:
padded header row, separator, padded data rows. -/
theorem gridLines_cons (h : List String) (tl : List (List String))
    (h2 : 0 < maxColsOf (h :: tl)) :
    gridLines (h :: tl)
      = rowLine (padRow (maxColsOf (h :: tl)) h)
        :: rowLine (List.replicate (padRow (maxColsOf (h :: tl)) h).length "---")
        :: (tl.map (padRow (maxColsOf (h :: tl)))).map rowLine := by
  simp [gridLines, h2]

/-- Every cell of a padded rendered row has its pipes escaped. -/
theorem pipesEsc_padded (m : Nat) (row : List Cell) :
    ∀ s ∈ padRow m (row.map renderCell), pipesEsc false s.toList = true := by
  intro s hs
  rcases List.mem_append.mp hs with h | h
  · obtain ⟨c, _, rfl⟩ := List.mem_map.mp h
    exact pipesEsc_renderCell c
  · rw [List.eq_of_mem_replicate h]
    rfl

/-- Field count of an emitted padded data row. -/
theorem fieldCount_padded_row (t : Table) (m : Nat) (hm : 0 < m)
    (r : List String) (hr : r ∈ tableData t) (hle : r.length ≤ m) :
    (fieldCells (rowLine (padRow m r))).length = m := by
  obtain ⟨row, _, rfl⟩ := List.mem_map.mp hr
  have hlen : (padRow m (row.map renderCell)).length = m :=
    padRow_length m _ hle
  have hne : padRow m (row.map renderCell) ≠ [] := by
    intro he
    rw [he] at hlen
    simp at hlen
    omega
  rw [fieldCells_rowLine_length _ hne (pipesEsc_padded m row), hlen]

/-- The separator row's fields: one `" --- "` per column. -/
theorem fieldCells_separator (m : Nat) (hm : 0 < m) :
    fieldCells (rowLine (List.replicate m "---"))
      = List.replicate m " --- " := by
  rw [fieldCells_rowLine (List.replicate m "---")
      (by simp; omega)
      (by intro c hc; rw [List.eq_of_mem_replicate hc]; rfl)]
  rw [List.map_replicate, show (" " ++ "---" ++ " ") = " --- " from rfl]

/-- Every emitted grid line of a rendered table has exactly `max_cols`
pipe-delimited fields. -/
theorem gridLines_field_count (t : Table) (h1 : tableData t ≠ [])
    (h2 : 0 < maxColsOf (tableData t)) :
    ∀ L ∈ gridLines (tableData t),
      (fieldCells L).length = maxColsOf (tableData t) := by
  intro L hL
  cases hd : tableData t with
  | nil => exact absurd hd h1
  | cons d ds =>
      rw [hd] at hL h2
      rw [gridLines_cons d ds h2] at hL
      have hdmem : d ∈ tableData t := by rw [hd]; exact List.mem_cons_self d ds
      have hdlen : d.length ≤ maxColsOf (d :: ds) :=
        length_le_maxColsOf _ _ (List.mem_cons_self d ds)
      rcases List.mem_cons.mp hL with rfl | hL2
      · exact fieldCount_padded_row t _ h2 d hdmem hdlen
      rcases List.mem_cons.mp hL2 with rfl | hL3
      · rw [padRow_length _ _ hdlen]
        rw [fieldCells_separator _ h2, List.length_replicate]
      · obtain ⟨r, hrm, rfl⟩ := List.mem_map.mp hL3
        obtain ⟨r₀, hr₀, rfl⟩ := List.mem_map.mp hrm
        have hr₀mem : r₀ ∈ tableData t := by
          rw [hd]
          exact List.mem_cons_of_mem d hr₀
        exact fieldCount_padded_row t _ h2 r₀ hr₀mem
          (length_le_maxColsOf _ _ (List.mem_cons_of_mem d hr₀))

/-- C2: for every rendered table, rows are right-padded with empty-string
cells to the maximum cell count `max_cols` of the table's rows; every
emitted grid line — header row, separator row, and every data row — has
exactly `max_cols` pipe-delimited fields; and the separator row carries
exactly one `---` field per column. -/
theorem c2_table_rectangular (t : Table)
    (h1 : tableData t ≠ []) (h2 : 0 < maxColsOf (tableData t)) :
    (∀ r ∈ (tableData t).map (padRow (maxColsOf (tableData t))),
        r.length = maxColsOf (tableData t)) ∧
    (∀ L ∈ gridLines (tableData t),
        (fieldCells L).length = maxColsOf (tableData t)) ∧
    (gridLines (tableData t))[1]?
      = some (rowLine (List.replicate (maxColsOf (tableData t)) "---")) ∧
    fieldCells (rowLine (List.replicate (maxColsOf (tableData t)) "---"))
      = List.replicate (maxColsOf (tableData t)) " --- " := by
  refine ⟨?_, gridLines_field_count t h1 h2, ?_, fieldCells_separator _ h2⟩
  · intro r hr
    obtain ⟨r₀, hr₀, rfl⟩ := List.mem_map.mp hr
    exact padRow_length _ _ (length_le_maxColsOf _ _ hr₀)
  · cases hd : tableData t with
    | nil => exact absurd hd h1
    | cons d ds =>
        rw [hd] at h2
        rw [gridLines_cons d ds h2]
        rw [padRow_length _ _ (length_le_maxColsOf _ _ (List.mem_cons_self d ds))]
        simp

/-- Witness for C2 at the spec's scenario table `[["a","b"],["c"]]`. -/
theorem c2_witness :
    (gridLines (tableData ⟨[[⟨["a"]⟩, ⟨["b"]⟩], [⟨["c"]⟩]]⟩))[1]?
      = some (rowLine (List.replicate 2 "---")) ∧
    fieldCells (rowLine (List.replicate 2 "---"))
      = List.replicate 2 " --- " := by
  have h := c2_table_rectangular ⟨[[⟨["a"]⟩, ⟨["b"]⟩], [⟨["c"]⟩]]⟩
    (by decide) (by decide)
  rw [show maxColsOf (tableData ⟨[[⟨["a"]⟩, ⟨["b"]⟩], [⟨["c"]⟩]]⟩) = 2
      from by decide] at h
  exact ⟨h.2.2.1, h.2.2.2⟩

/-- C3: in every rendered table cell, every literal pipe is escaped by a
preceding backslash and every newline or carriage return is replaced, so
every emitted grid line splits on unescaped pipes into exactly `max_cols`
fields, whatever the cell texts contain. -/
theorem c3_escaping_split_safe :
    (∀ c : Cell, pipesEsc false (renderCell c).toList = true) ∧
    (∀ c : Cell, '\n' ∉ (renderCell c).toList ∧ '\r' ∉ (renderCell c).toList) ∧
    (∀ t : Table, tableData t ≠ [] → 0 < maxColsOf (tableData t) →
        ∀ L ∈ gridLines (tableData t),
          (fieldCells L).length = maxColsOf (tableData t)) :=
  ⟨pipesEsc_renderCell, noNewline_renderCell, gridLines_field_count⟩

/-- Witness for C3 at a table whose cells contain a literal pipe and a
newline. -/
theorem c3_witness :
    pipesEsc false (renderCell ⟨["a|b"]⟩).toList = true ∧
    (fieldCells "| a\\|b | x y |").length = 2 := by
  constructor
  · exact c3_escaping_split_safe.1 ⟨["a|b"]⟩
  · have h := c3_escaping_split_safe.2.2 ⟨[[⟨["a|b"]⟩, ⟨["x\ny"]⟩]]⟩
      (by decide) (by decide) "| a\\|b | x y |" (by decide)
    rw [show maxColsOf (tableData ⟨[[⟨["a|b"]⟩, ⟨["x\ny"]⟩]]⟩) = 2
        from by decide] at h
    exact h

theorem specJoin_cons (p : List Char) :
    ∀ ps : List (List Char),
      specJoin (p :: ps) = stripL p ++ ps.flatMap (fun q => ' ' :: stripL q)
  | [] => by simp [specJoin]
  | q :: qs => by
      rw [show specJoin (p :: q :: qs) = stripL p ++ ' ' :: specJoin (q :: qs)
          from rfl]
      rw [specJoin_cons q qs]
      simp

/-- Once the accumulator is non-empty, the cell loop appends one space and
one stripped paragraph per step. -/
theorem foldl_cellStep_ne_nil :
    ∀ (ps : List (List Char)) (acc : List Char), acc ≠ [] →
      ps.foldl cellStep acc = acc ++ ps.flatMap (fun p => ' ' :: stripL p)
  | [], acc, _ => by simp
  | p :: ps, acc, hacc => by
      rw [List.foldl_cons]
      rw [show cellStep acc p = acc ++ ' ' :: stripL p by
        simp [cellStep, hacc]]
      rw [foldl_cellStep_ne_nil ps (acc ++ ' ' :: stripL p) (by simp)]
      simp

theorem cleanL_space_cons (x : List Char) :
    cleanL (' ' :: x) = ' ' :: cleanL x := by
  simp [cleanL, replaceChar]

theorem stripL_space_cons (y : List Char) :
    stripL (' ' :: y) = stripL y := by
  simp [stripL, dropWS, pyWS]

/-- Leading spaces are irrelevant after cleaning and stripping. -/
theorem strip_clean_flatMap (ps : List (List Char)) :
    stripL (cleanL (ps.flatMap (fun q => ' ' :: stripL q)))
      = stripL (cleanL (specJoin ps)) := by
  cases ps with
  | nil => rfl
  | cons q qs =>
      rw [specJoin_cons]
      rw [show (q :: qs).flatMap (fun r => ' ' :: stripL r)
            = ' ' :: (stripL q ++ qs.flatMap (fun r => ' ' :: stripL r))
          by simp]
      rw [cleanL_space_cons, stripL_space_cons]

/-- The conditional-space accumulation of the scripts renders, after the
clean-up and final strip, the same text as the plain single-space join of
the trimmed paragraph texts. -/
theorem strip_clean_cellJoin :
    ∀ ps : List (List Char),
      stripL (cleanL (cellJoinL ps)) = stripL (cleanL (specJoin ps))
  | [] => rfl
  | p :: ps => by
      rw [show cellJoinL (p :: ps) = ps.foldl cellStep (stripL p) by
        simp [cellJoinL, cellStep]]
      by_cases hp : stripL p = []
      · rw [hp]
        rw [show ps.foldl cellStep ([] : List Char) = cellJoinL ps from rfl]
        rw [strip_clean_cellJoin ps]
        rw [specJoin_cons, hp]
        rw [show ([] : List Char) ++ ps.flatMap (fun q => ' ' :: stripL q)
              = ps.flatMap (fun q => ' ' :: stripL q) by simp]
        exact (strip_clean_flatMap ps).symm
      · rw [foldl_cellStep_ne_nil ps (stripL p) hp, specJoin_cons]

/-- C7: the rendered text of a table cell equals the spec's description —
the cell's trimmed paragraph texts joined with exactly one separating
space between each consecutive pair (then escaped and trimmed), for every
sequence of paragraph texts, including sequences containing empty
paragraphs. -/
theorem c7_cell_join (c : Cell) : renderCell c = specRenderCell c := by
  show String.mk (stripL (cleanL (cellJoinL (c.paras.map String.toList))))
    = String.mk (stripL (cleanL (specJoin (c.paras.map String.toList))))
  rw [strip_clean_cellJoin]

/-- C1 counterexample: the style name `"Title Heading 2"` contains
`"Heading 2"`, yet the emitted line is `"# x"` — the `Title` rule fires
first — so it is not prefixed with `"## "`. -/
theorem c1_counterexample :
    strContains "Title Heading 2" "Heading 2" = true ∧
    styleLine "Title Heading 2" "x" = "# x" ∧
    styleLine "Title Heading 2" "x" ≠ "## " ++ "x" := by decide

/-- C1 (amended): for every non-empty paragraph the emitted line is
determined by the first matching rule of the ordered case-sensitive style
mapping (the spec's chain, `specStyleLine`); and every style name
containing `"Heading 2"` that does not match an earlier rule — it does not
contain `"Title"` or `"Heading 1"` and is not equal to `"Heading1"` — is
emitted prefixed with exactly `"## "`. -/
theorem c1_amended_style_mapping :
    (∀ p : Paragraph, pyStrip p.text ≠ "" →
        paraLines p
          = [specStyleLine (p.style.getD "Normal") (pyStrip p.text), ""]) ∧
    (∀ style text : String, strContains style "Heading 2" = true →
        strContains style "Title" = false →
        strContains style "Heading 1" = false →
        style ≠ "Heading1" →
        styleLine style text = "## " ++ text) := by
  constructor
  · intro p h
    cases hs : p.style <;> simp [paraLines, h, hs, Option.getD] <;> rfl
  · intro style text h1 h2 h3 h4
    simp [styleLine, h1, h2, h3, h4]

/-- Witness for C1 at a plain paragraph and at the style `"Heading 2"`. -/
theorem c1_witness :
    paraLines ⟨some "Body", "hi"⟩
      = [specStyleLine ((some "Body").getD "Normal") (pyStrip "hi"), ""] ∧
    styleLine "Heading 2" "x" = "## " ++ "x" :=
  ⟨c1_amended_style_mapping.1 ⟨some "Body", "hi"⟩ (by decide),
    c1_amended_style_mapping.2 "Heading 2" "x"
      (by decide) (by decide) (by decide) (by decide)⟩

/-- C10: a non-empty paragraph whose style attribute is absent is treated
as `'Normal'` and emitted as plain text with no heading prefix. -/
theorem c10_default_style (text : String) (h : pyStrip text ≠ "") :
    paraLines ⟨none, text⟩ = [pyStrip text, ""] := by
  simp [paraLines, h]
  rfl

/-- Witness for C10 at the text `"hi"`. -/
theorem c10_witness : paraLines ⟨none, "hi"⟩ = [pyStrip "hi", ""] :=
  c10_default_style "hi" (by decide)

/-- C9: a paragraph whose trimmed text is empty contributes zero lines to
the output, at every position of the document. -/
theorem c9_empty_paragraphs (label : String) (pre post : List Paragraph)
    (p : Paragraph) (tables : List Table) (hp : pyStrip p.text = "") :
    markdownLines label ⟨pre ++ p :: post, tables⟩
      = markdownLines label ⟨pre ++ post, tables⟩ := by
  have hnil : paraLines p = [] := by simp [paraLines, hp]
  simp [markdownLines, hnil]

/-- Witness for C9: a whitespace-only paragraph in the middle of the
scenario document changes nothing. -/
theorem c9_witness :
    markdownLines "# DOCUMENT TABLES"
        ⟨[⟨some "Title", "Report"⟩] ++ ⟨some "Normal", "  "⟩
          :: [⟨some "Normal", "Hello world"⟩], []⟩
      = markdownLines "# DOCUMENT TABLES"
        ⟨[⟨some "Title", "Report"⟩] ++ [⟨some "Normal", "Hello world"⟩], []⟩ :=
  c9_empty_paragraphs "# DOCUMENT TABLES" [⟨some "Title", "Report"⟩]
    [⟨some "Normal", "Hello world"⟩] ⟨some "Normal", "  "⟩ [] (by decide)

theorem replaceSubFuel_nil_arg (nd rp : List Char) :
    ∀ fuel : Nat, replaceSubFuel nd rp fuel [] = []
  | 0 => rfl
  | _ + 1 => rfl

theorem startsL_refl : ∀ l : List Char, startsL l l = true
  | [] => rfl
  | c :: rest => by simp [startsL, startsL_refl rest]

/-- Scanning `stem ++ nd` when the pattern `nd` occurs nowhere before the
final position: the scan copies `stem` and replaces the final
occurrence. -/
theorem replaceSubFuel_stem (nd rp : List Char) (hnd : nd ≠ []) :
    ∀ (stem : List Char) (fuel : Nat), (stem ++ nd).length ≤ fuel →
      (∀ i, i < stem.length →
        startsL (List.drop i (stem ++ nd)) nd = false) →
      replaceSubFuel nd rp fuel (stem ++ nd) = stem ++ rp
  | [], fuel, hfuel, _ => by
      cases nd with
      | nil => exact absurd rfl hnd
      | cons n0 nd' =>
          cases fuel with
          | zero => simp at hfuel
          | succ f =>
              show replaceSubFuel (n0 :: nd') rp (f + 1) (n0 :: nd') = rp
              rw [show replaceSubFuel (n0 :: nd') rp (f + 1) (n0 :: nd')
                    = if startsL (n0 :: nd') (n0 :: nd') then
                        rp ++ replaceSubFuel (n0 :: nd') rp f
                          (List.drop (n0 :: nd').length (n0 :: nd'))
                      else n0 :: replaceSubFuel (n0 :: nd') rp f nd' from rfl]
              rw [if_pos (by rw [startsL_refl])]
              rw [List.drop_length, replaceSubFuel_nil_arg]
              simp
  | c :: stem', fuel, hfuel, hno => by
      cases fuel with
      | zero => simp at hfuel
      | succ f =>
          have hguard : startsL (c :: (stem' ++ nd)) nd = false := by
            have := hno 0 (by simp)
            simpa using this
          show replaceSubFuel nd rp (f + 1) (c :: (stem' ++ nd)) = c :: (stem' ++ rp)
          rw [show replaceSubFuel nd rp (f + 1) (c :: (stem' ++ nd))
                = if startsL (c :: (stem' ++ nd)) nd then
                    rp ++ replaceSubFuel nd rp f
                      (List.drop nd.length (c :: (stem' ++ nd)))
                  else c :: replaceSubFuel nd rp f (stem' ++ nd) from rfl]
          rw [hguard]
          simp only [Bool.false_eq_true, if_false]
          rw [replaceSubFuel_stem nd rp hnd stem' f
            (by simp at hfuel ⊢; omega)
            (fun i hi => by
              have := hno (i + 1) (by simp; omega)
              simpa using this)]

/-- C4 counterexample: `str.replace` replaces every occurrence of
`".docx"`, so an input whose name contains `".docx"` twice does not map to
`<input-stem>_exact_extraction.md`. -/
theorem c4_counterexample :
    outputName "a.docx.docx" = "a_exact_extraction.md_exact_extraction.md" ∧
    outputName "a.docx.docx" ≠ "a.docx" ++ "_exact_extraction.md" := by
  decide

/-- C4 (amended): the output name is the input name with every occurrence
of `".docx"` replaced by `"_exact_extraction.md"`; in particular, when the
only occurrence of `".docx"` is the final extension, the output is
`<input-stem>_exact_extraction.md`. -/
theorem c4_amended_output_name (stem : String)
    (h : ∀ i, i < stem.toList.length →
        startsL (List.drop i (stem.toList ++ ".docx".toList))
          ".docx".toList = false) :
    outputName (stem ++ ".docx") = stem ++ "_exact_extraction.md" := by
  show String.mk (replaceSubL ".docx".toList "_exact_extraction.md".toList
      (stem ++ ".docx").toList) = stem ++ "_exact_extraction.md"
  rw [show (stem ++ ".docx").toList = stem.toList ++ ".docx".toList from rfl]
  unfold replaceSubL
  rw [replaceSubFuel_stem ".docx".toList "_exact_extraction.md".toList
    (by decide) stem.toList (stem.toList ++ ".docx".toList).length
    (le_refl _) h]
  rfl

/-- Witness for C4 at the input `"report.docx"`. -/
theorem c4_witness :
    outputName ("report" ++ ".docx") = "report" ++ "_exact_extraction.md" :=
  c4_amended_output_name "report" (by decide)

/-- C5 counterexample: a table with zero rows emits its header followed by
two blank lines — the blank after the header and the blank appended after
every table — not exactly one blank line. -/
theorem c5_counterexample :
    tableLines 0 (tableData ⟨[]⟩) = ["## Table 1", "", ""] ∧
    tableLines 0 (tableData ⟨[]⟩) ≠ ["## Table 1", ""] := by decide

/-- C5 (amended): a table with zero rows, or zero columns after padding,
emits no grid lines — only its own header `## Table N`, the blank line
after it, and the blank line appended after every table. -/
theorem c5_amended_empty_table (idx : Nat) (t : Table)
    (h : t.rows = [] ∨ maxColsOf (tableData t) = 0) :
    tableLines idx (tableData t)
      = ["## Table " ++ toString (idx + 1), "", ""] := by
  have hg : gridLines (tableData t) = [] := by
    rcases h with h | h
    · simp [gridLines, tableData, h]
    · simp [gridLines, h]
  simp [tableLines, hg]

/-- Witness for C5 at a zero-row table. -/
theorem c5_witness :
    tableLines 0 (tableData ⟨[]⟩)
      = ["## Table " ++ toString (0 + 1), "", ""] :=
  c5_amended_empty_table 0 ⟨[]⟩ (Or.inl rfl)

/-- C6 counterexample: for the scenario document the written content ends
in a single newline — `'\n'.join` adds no separator after the final blank
element — not in two. -/
theorem c6_counterexample :
    fileContent (mdLinesSimple ⟨[⟨some "Title", "Report"⟩,
        ⟨some "Normal", "Hello world"⟩], []⟩)
      ≠ "# Report\n\nHello world\n\n" ∧
    fileContent (mdLinesExact ⟨[⟨some "Title", "Report"⟩,
        ⟨some "Normal", "Hello world"⟩], []⟩)
      ≠ "# Report\n\nHello world\n\n" := by decide

/-- C6 (amended): for the scenario document the output of both scripts is
exactly `"# Report\n\nHello world\n"` — one trailing newline — and no
`---` rule or table section appears. -/
theorem c6_amended_scenario :
    mdLinesSimple ⟨[⟨some "Title", "Report"⟩,
        ⟨some "Normal", "Hello world"⟩], []⟩
      = ["# Report", "", "Hello world", ""] ∧
    mdLinesExact ⟨[⟨some "Title", "Report"⟩,
        ⟨some "Normal", "Hello world"⟩], []⟩
      = ["# Report", "", "Hello world", ""] ∧
    fileContent (mdLinesSimple ⟨[⟨some "Title", "Report"⟩,
        ⟨some "Normal", "Hello world"⟩], []⟩)
      = "# Report\n\nHello world\n" ∧
    fileContent (mdLinesExact ⟨[⟨some "Title", "Report"⟩,
        ⟨some "Normal", "Hello world"⟩], []⟩)
      = "# Report\n\nHello world\n" ∧
    strContains (fileContent (mdLinesSimple ⟨[⟨some "Title", "Report"⟩,
        ⟨some "Normal", "Hello world"⟩], []⟩)) "---" = false := by decide

/-- C8: when the input file does not exist, the conversion writes nothing
— the file system is returned unchanged — reports the not-found error, and
returns `None` as failure indicator. -/
theorem c8_missing_input (fs : FS) (parse : String → Option DocModel)
    (filename : String) (h : pathExists fs filename = false) :
    runConvertSimple fs parse filename
      = (fs, ["Error: File '" ++ filename ++ "' not found"], none) := by
  simp [runConvertSimple, h]

/-- Witness for C8 on an empty file system. -/
theorem c8_witness :
    runConvertSimple ⟨[]⟩ (fun _ => none) "doc.docx"
      = (⟨[]⟩, ["Error: File '" ++ "doc.docx" ++ "' not found"], none) :=
  c8_missing_input ⟨[]⟩ (fun _ => none) "doc.docx" (by decide)
